import Mathlib

/-!
Verification development for the FACE-ARCITECT repository: a shallow
embedding of its data model (src/types.ts), the IndexedDB-backed
preference store (src/services/storageService.ts), the session
restore / auto-save logic and the batch face-swap pipeline
(src/App.tsx), together with theorems settling the specification
claims about them.

Modelling conventions:
 - TypeScript optional fields and possibly-absent object keys become
   `Option`; a JavaScript value that is `undefined` or `null` is `none`.
 - Strings stay `String`; numeric ids become `Nat`.
 - The asynchronous IndexedDB store is modelled as an explicit value of
   type `Option UserPreferences` threaded through the operations;
   storage faults are injected explicitly and a rejected promise is an
   `Except.error`.
 - The React component's state cells (`targets`, `sourceFaces`,
   `settings`, ...) are explicit values.  An executing async closure
   (such as `runBatchProcessor`) reads the values captured at the
   render in which it was created — per JavaScript closure semantics —
   while `setTargets(prev => ...)` functional updates act on the live
   state.  The embedding therefore distinguishes the call-time
   snapshot (the closure's `targets`, `sourceFaces`, `settings`) from
   the live collection, and lets the environment edit the live
   collection at the suspension points of the loop (the awaited swap
   call and the fixed inter-item pause).
-/

namespace FaceArchitect

/-- Face analysis payload (src/types.ts `FaceAnalysisResult`).  The
application never inspects its contents: it is produced by the external
analyzer, displayed, and persisted opaquely.  We keep the two string
label fields; the numeric/record fields (landmarks, lighting,
confidence) are opaque payload never read by any operation a claim is
about, and are omitted. -/
structure FaceAnalysisResult where
  skin_tone : String
  undertone : String
deriving DecidableEq, Repr

/-- Per-item processing status (src/types.ts `ProcessedImage.status`). -/
inductive Status where
  | idle
  | processing
  | completed
  | failed
deriving DecidableEq, Repr

/-- One target item (src/types.ts `ProcessedImage`). -/
structure ProcessedImage where
  id : Nat
  originalUrl : String
  processedUrl : Option String := none
  status : Status
  error : Option String := none
  analysis : Option FaceAnalysisResult := none
deriving DecidableEq, Repr

/-- src/types.ts `SwapSettings.faceScaleLock`. -/
inductive FaceScaleLock where
  | auto
  | fixed
deriving DecidableEq, Repr

/-- src/types.ts `SwapSettings`. -/
structure SwapSettings where
  preserveHair : Bool
  matchSkinTone : Bool
  matchLighting : Bool
  faceScaleLock : FaceScaleLock
  skinSmoothness : Nat
  outputQuality : Nat
deriving DecidableEq, Repr

/-- src/constants.ts `DEFAULT_SWAP_SETTINGS`. -/
def DEFAULT_SWAP_SETTINGS : SwapSettings :=
  { preserveHair := true
    matchSkinTone := true
    matchLighting := true
    faceScaleLock := .auto
    skinSmoothness := 5
    outputQuality := 90 }

/-- The persisted session snapshot (src/types.ts `AppSessionState` as
actually written by the auto-save effect in src/App.tsx: keys
`targets`, `sourceFaces`, `analysis`).  Each field is `Option` because
a stored record may lack the key (the restore code reads
`s.targets || []` and `s.sourceFaces || []`). -/
structure AppSessionState where
  targets : Option (List ProcessedImage)
  sourceFaces : Option (List String)
  analysis : Option FaceAnalysisResult
deriving DecidableEq, Repr

/-- The legacy / bookmark record shape (src/types.ts
`UserPreferences.last_used_source`).  The restore code probes both a
single `image` and a newer `images` array (`as any`), so both are
modelled as optional. -/
structure LastUsedSource where
  image : Option String
  images : Option (List String)
  analysis : Option FaceAnalysisResult
  timestamp : Int
deriving DecidableEq, Repr

/-- src/types.ts `UserPreferences`: the single record stored under the
fixed key `user_settings`. -/
structure UserPreferences where
  last_used_source : Option LastUsedSource
  session_state : Option AppSessionState
deriving DecidableEq, Repr

/-- A `Partial<UserPreferences>` argument to `updatePreferences`:
`none` means the key is absent from the partial object.  (The
application never passes an explicitly-`undefined` key.) -/
structure PartialPreferences where
  last_used_source : Option LastUsedSource := none
  session_state : Option AppSessionState := none
deriving DecidableEq, Repr

/-- The record used when nothing is stored yet:
`const current = (getReq.result as UserPreferences) || {}`. -/
def emptyPreferences : UserPreferences :=
  { last_used_source := none, session_state := none }

/-- The JavaScript spread merge `{ ...current, ...partialPrefs }` in
src/services/storageService.ts `updatePreferences`: every top-level key
present in the partial object replaces the stored value wholesale;
absent keys keep the stored value. -/
def mergePreferences (current : UserPreferences) (part : PartialPreferences) :
    UserPreferences :=
  { last_used_source :=
      match part.last_used_source with
      | some v => some v
      | none => current.last_used_source
    session_state :=
      match part.session_state with
      | some v => some v
      | none => current.session_state }

/-- The successful path of storageService `updatePreferences`: read the
stored record (defaulting to `{}`), spread-merge the partial update
over it, and put the result back under the fixed key. -/
def updatePreferencesStore (store : Option UserPreferences)
    (part : PartialPreferences) : UserPreferences :=
  mergePreferences (store.getD emptyPreferences) part

/-- Fault injection for the IndexedDB layer: no fault, `openDB`
rejection, `get` request error, or `put` request error. -/
inductive StorageFault where
  | ok
  | openFail (e : String)
  | getFail (e : String)
  | putFail (e : String)
deriving DecidableEq, Repr

/-- storageService `updatePreferences`, with faults.  An `openDB`
rejection is caught by the `try/catch`, logged, and re-thrown
(`throw err`); a `get` or `put` request error rejects the inner
promise, which the surrounding `try/catch` never observes (the promise
is returned, not awaited), so the rejection also escapes to the
caller.  On every fault the stored record is unchanged (`Except.error`
carries the rejection; the pair's second component is the resulting
store content). -/
def updatePreferencesE (fault : StorageFault) (store : Option UserPreferences)
    (part : PartialPreferences) : Except String Unit × Option UserPreferences :=
  match fault with
  | .ok => (.ok (), some (updatePreferencesStore store part))
  | .openFail e => (.error e, store)
  | .getFail e => (.error e, store)
  | .putFail e => (.error e, store)

/-- storageService `loadPreferences`, with faults.  An `openDB`
rejection is caught and converted to `null` (`return null` in the
catch); a `get` request error rejects the returned promise and escapes
to the caller; a put fault is irrelevant on the read path. -/
def loadPreferencesE (fault : StorageFault) (store : Option UserPreferences) :
    Except String (Option UserPreferences) :=
  match fault with
  | .ok => .ok store
  | .openFail _ => .ok none
  | .getFail e => .error e
  | .putFail _ => .ok store

/-- The in-memory session state owned by the App component
(src/App.tsx `useState` cells that the persistence layer touches). -/
structure SessionMem where
  targets : List ProcessedImage
  sourceFaces : List String
  analysis : Option FaceAnalysisResult
deriving DecidableEq, Repr

/-- The in-memory state before the restore effect runs:
`useState([])`, `useState([])`, `useState(null)`. -/
def initialMem : SessionMem :=
  { targets := [], sourceFaces := [], analysis := none }

/-- The startup restore effect (src/App.tsx `init`): prefer a full
`session_state` snapshot (`s.targets || []`, `s.sourceFaces || []`,
`s.analysis || null`); otherwise fall back to the legacy
`last_used_source` shape, taking `lastSource.images` if that key is
present, else `[lastSource.image]` when `image` is truthy (a
JavaScript empty string is falsy, so it sets nothing). -/
def restoreSession (prefs : Option UserPreferences) : SessionMem :=
  match prefs with
  | none => initialMem
  | some p =>
    match p.session_state with
    | some s =>
      { targets := s.targets.getD []
        sourceFaces := s.sourceFaces.getD []
        analysis := s.analysis }
    | none =>
      match p.last_used_source with
      | some ls =>
        { targets := []
          sourceFaces :=
            match ls.images with
            | some imgs => imgs
            | none =>
              match ls.image with
              | some i => if i = "" then [] else [i]
              | none => []
          analysis := ls.analysis }
      | none => initialMem

/-- The partial update written by the auto-save effect (src/App.tsx):
`updatePreferences({ session_state: { targets, sourceFaces,
analysis: analysis || undefined } })`. -/
def autoSavePartial (m : SessionMem) : PartialPreferences :=
  { last_used_source := none
    session_state := some
      { targets := some m.targets
        sourceFaces := some m.sourceFaces
        analysis := m.analysis } }

/-- Restoring a stored record into memory and immediately persisting
that memory again: the composition the round-trip claim is about. -/
def persistAfterRestore (r : UserPreferences) : UserPreferences :=
  updatePreferencesStore (some r) (autoSavePartial (restoreSession (some r)))

/-- A concrete legacy-shape record: a `last_used_source` bookmark and
no `session_state` snapshot. -/
def legacyRecord : UserPreferences :=
  { last_used_source := some
      { image := some "data:image/png;base64,AAAA"
        images := none
        analysis := some { skin_tone := "Fair", undertone := "Warm" }
        timestamp := 1700000000 }
    session_state := none }

/-- One auto-save attempt at the application level: the effect calls
`updatePreferences` fire-and-forget, so the in-memory state is the same
whether the write succeeds or rejects, and on rejection the store is
unchanged. -/
def autoSaveStep (fault : StorageFault) (m : SessionMem)
    (store : Option UserPreferences) : SessionMem × Option UserPreferences :=
  (m, (updatePreferencesE fault store (autoSavePartial m)).2)

/-- Startup / auto-save scheduling events relevant to the
write-after-restore ordering claim: `finishRestore` is the `finally`
block of the `init` effect (`setIsStorageLoaded(true)`, reached whether
`loadPreferences` resolved or rejected); `autoSaveTick` is one run of
the auto-save effect together with its debounce timer firing. -/
inductive PersistAct where
  | finishRestore
  | autoSaveTick
deriving DecidableEq, Repr

/-- Observable persistence-related events: the initial restore has
settled, or a `updatePreferences` write was issued. -/
inductive PersistEvent where
  | restoreSettled
  | write
deriving DecidableEq, Repr

/-- The event trace of a startup interleaving.  The boolean is the
`isStorageLoaded` state cell: it starts `false`, and the auto-save
effect returns immediately (`if (!isStorageLoaded) return;`) while it
is `false`, so no write is scheduled; the `finally` of `init` flips it
to `true`. -/
def persistTrace : Bool → List PersistAct → List PersistEvent
  | _, [] => []
  | _, .finishRestore :: rest => .restoreSettled :: persistTrace true rest
  | true, .autoSaveTick :: rest => .write :: persistTrace true rest
  | false, .autoSaveTick :: rest => persistTrace false rest

/-- The `setSourceFaces` updater inside src/App.tsx
`handleSourceSelect`: reject byte-identical duplicates
(`prev.includes(base64)`), reject when at capacity
(`prev.length >= 3`), otherwise append. -/
def addSourceFace (prev : List String) (b64 : String) : List String :=
  if b64 ∈ prev then prev
  else if prev.length ≥ 3 then prev
  else prev ++ [b64]

/-- The `prev.map(t => t.id === id ? { ...t, X } : t)` update pattern
used by every `setTargets` call inside the batch loop. -/
def updById (id : Nat) (mod : ProcessedImage → ProcessedImage)
    (live : List ProcessedImage) : List ProcessedImage :=
  live.map fun t => if t.id = id then mod t else t

/-- `setTargets(prev => prev.map(t => t.id === id ?
{ ...t, status: 'processing' } : t))`. -/
def markProcessing (id : Nat) (live : List ProcessedImage) :
    List ProcessedImage :=
  updById id (fun t => { t with status := .processing }) live

/-- `setTargets(prev => prev.map(t => t.id === id ?
{ ...t, status: 'completed', processedUrl: swappedImage } : t))`. -/
def markCompleted (id : Nat) (img : String) (live : List ProcessedImage) :
    List ProcessedImage :=
  updById id (fun t => { t with status := .completed, processedUrl := some img })
    live

/-- `setTargets(prev => prev.map(t => t.id === id ?
{ ...t, status: 'failed', error: message } : t))`. -/
def markFailed (id : Nat) (msg : String) (live : List ProcessedImage) :
    List ProcessedImage :=
  updById id (fun t => { t with status := .failed, error := some msg }) live

/-- `targets.find(t => t.id === id)?.originalUrl` followed by the
`if (!targetUrl) continue` truthiness test (`undefined` and the empty
string are both falsy).  Note the `targets` being searched is the
closure's call-time snapshot, not the live collection. -/
def targetUrlOf (snap : List ProcessedImage) (id : Nat) : Option String :=
  match snap.find? (fun t => t.id == id) with
  | some t => if t.originalUrl = "" then none else some t.originalUrl
  | none => none

/-- One invocation of the external face-swap engine, as recorded on the
trace: `performFaceSwap(sourceFaces, targetUrl, settings)`. -/
structure SwapCall where
  sources : List String
  targetUrl : String
  settings : SwapSettings
deriving DecidableEq, Repr

/-- One iteration of the batch loop body for worklist identifier `id`:
mark the item `processing` on the live collection, look the URL up in
the call-time snapshot, `continue` if it is falsy, otherwise invoke the
engine (`result` is the settled outcome of `performFaceSwap`) and mark
the item `completed` or `failed` on the live collection.  Returns the
new live collection and the engine call made, if any. -/
def processItem (snap : List ProcessedImage) (sources : List String)
    (settings : SwapSettings) (result : Except String String) (id : Nat)
    (live : List ProcessedImage) : List ProcessedImage × Option SwapCall :=
  let live1 := markProcessing id live
  match targetUrlOf snap id with
  | none => (live1, none)
  | some url =>
    match result with
    | .ok img => (markCompleted id img live1, some ⟨sources, url, settings⟩)
    | .error e => (markFailed id e live1, some ⟨sources, url, settings⟩)

/-- The `for (const id of idleIds)` loop.  `oracle k` is the settled
outcome of the `k`-th engine call; `edits k` is whatever live-state
mutation the user performs at the suspension point before iteration
`k` (during the previous iteration's awaited swap and fixed pause) —
the loop's closure never observes it except through the functional
`setTargets` updates.  Returns the final live collection and the list
of engine calls in order. -/
def runWorklist (snap : List ProcessedImage) (sources : List String)
    (settings : SwapSettings) (oracle : Nat → Except String String)
    (edits : Nat → List ProcessedImage → List ProcessedImage) :
    List Nat → Nat → List ProcessedImage → List ProcessedImage × List SwapCall
  | [], _, live => (live, [])
  | id :: rest, k, live =>
    let live1 := edits k live
    let step := processItem snap sources settings (oracle k) id live1
    let next := runWorklist snap sources settings oracle edits rest (k + 1) step.1
    (next.1, step.2.toList ++ next.2)

/-- `targets.filter(t => t.status === 'idle').map(t => t.id)`: the
fixed worklist computed at the start of the run. -/
def idleIds (l : List ProcessedImage) : List Nat :=
  (l.filter fun t => t.status == Status.idle).map (·.id)

/-- src/App.tsx `runBatchProcessor`: no-op when the closure's
`sourceFaces` is empty; otherwise compute the worklist from the
call-time snapshot and process it sequentially.  At call time the live
collection equals the snapshot. -/
def runBatchProcessor (snap : List ProcessedImage) (sources : List String)
    (settings : SwapSettings) (oracle : Nat → Except String String)
    (edits : Nat → List ProcessedImage → List ProcessedImage) :
    List ProcessedImage × List SwapCall :=
  if sources.isEmpty then (snap, [])
  else runWorklist snap sources settings oracle edits (idleIds snap) 0 snap

/-- The value of the `settings` state cell at the dispatch time of
iteration `k`, given the user's mid-run edits: `sEdits j` is the edit
performed during iteration `j`'s suspension, visible from iteration
`j + 1` on.  (The claim about dispatch-time settings reads are stated
against this.) -/
def liveSettingsAt (sEdits : Nat → SwapSettings → SwapSettings)
    (s0 : SwapSettings) : Nat → SwapSettings
  | 0 => s0
  | k + 1 => sEdits k (liveSettingsAt sEdits s0 k)

/-- A terminal per-item status. -/
def terminalStatus (t : ProcessedImage) : Prop :=
  t.status = .completed ∨ t.status = .failed

/-- The per-item invariant of claim C2: `processedUrl` present iff
`completed`, `error` present iff `failed`. -/
def ItemInv (t : ProcessedImage) : Prop :=
  (t.processedUrl.isSome ↔ t.status = .completed) ∧
  (t.error.isSome ↔ t.status = .failed)

/-- Every item of a collection satisfies the C2 invariant. -/
def InvList (l : List ProcessedImage) : Prop :=
  ∀ t ∈ l, ItemInv t

/-- States of the target collection reachable by the operations the C2
claim quantifies over, paired with the persisted `session_state.targets`
content (`none` when no snapshot is stored).  Constructors: the fresh
session; creation (`handleTargetSelect` appends an `idle` item); removal
(the per-card delete button, `prev.filter(p => p.id !== target.id)`);
any prefix of a `runBatchProcessor` run over the worklist computed from
the current collection, with arbitrary user edits at the suspension
points that may drop or reorder existing items and add fresh `idle`
items whose ids are outside the worklist; a debounced auto-save
persisting the collection; starting a new page session; and the startup
restore of a stored snapshot. -/
inductive ReachableTargets :
    List ProcessedImage × Option (List ProcessedImage) → Prop where
  | init : ReachableTargets ([], none)
  | addTarget (m : List ProcessedImage) (s : Option (List ProcessedImage))
      (id : Nat) (url : String) :
      ReachableTargets (m, s) →
      ReachableTargets (m ++ [{ id := id, originalUrl := url, status := .idle }], s)
  | removeTarget (m : List ProcessedImage) (s : Option (List ProcessedImage))
      (id : Nat) :
      ReachableTargets (m, s) →
      ReachableTargets (m.filter (fun t => t.id ≠ id), s)
  | batch (m : List ProcessedImage) (s : Option (List ProcessedImage))
      (sources : List String) (settings : SwapSettings)
      (oracle : Nat → Except String String)
      (edits : Nat → List ProcessedImage → List ProcessedImage) (k : Nat)
      (hnd : (m.map (·.id)).Nodup)
      (hedits : ∀ j live t, t ∈ edits j live → t ∈ live ∨
        (t.status = .idle ∧ t.processedUrl = none ∧ t.error = none ∧
          t.id ∉ idleIds m)) :
      ReachableTargets (m, s) →
      ReachableTargets
        ((runWorklist m sources settings oracle edits ((idleIds m).take k) 0 m).1, s)
  | persist (m : List ProcessedImage) (s : Option (List ProcessedImage)) :
      ReachableTargets (m, s) → ReachableTargets (m, some m)
  | newSession (m : List ProcessedImage) (s : Option (List ProcessedImage)) :
      ReachableTargets (m, s) → ReachableTargets ([], s)
  | restore (m : List ProcessedImage) (p : List ProcessedImage) :
      ReachableTargets (m, some p) → ReachableTargets (p, some p)

/-- Concrete call-time collection used to witness the batch
postcondition: one idle item and one already-completed item. -/
def snapC1W : List ProcessedImage :=
  [{ id := 1, originalUrl := "u1", status := .idle },
   { id := 2, originalUrl := "u2", processedUrl := some "p",
     status := .completed }]

/-- Concrete mid-run additions used to witness the batch postcondition:
one fresh idle item appended while the first worklist item is being
processed. -/
def addsC1W : Nat → List ProcessedImage :=
  fun k => if k = 0 then [{ id := 7, originalUrl := "u7", status := .idle }]
           else []

end FaceArchitect

namespace FaceArchitect

/-- Claim C5: for every prior store content and values X, Y, calling
`updatePreferences({last_used_source: X})` and then
`updatePreferences({session_state: Y})` leaves a single stored record
containing both X and Y: each write is a read-modify-write merge. -/
theorem C5_update_merges_not_overwrites
    (store : Option UserPreferences) (X : LastUsedSource) (Y : AppSessionState) :
    let s1 := updatePreferencesStore store
      { last_used_source := some X, session_state := none }
    let s2 := updatePreferencesStore (some s1)
      { last_used_source := none, session_state := some Y }
    s2.last_used_source = some X ∧ s2.session_state = some Y := by
  constructor <;> rfl

/-- Claim C10: `updatePreferences` merges only at the top level: each top-level
key present in the partial update replaces its entire previous value
wholesale (a partial carrying `session_state` discards every nested
field of the previously stored `session_state`), while top-level keys
absent from the update keep their stored values. -/
theorem C10_merge_is_shallow
    (current : UserPreferences) (part : PartialPreferences) :
    (updatePreferencesStore (some current) part).last_used_source =
      (match part.last_used_source with
       | some v => some v
       | none => current.last_used_source) ∧
    (updatePreferencesStore (some current) part).session_state =
      (match part.session_state with
       | some v => some v
       | none => current.session_state) := by
  constructor <;> rfl

/-- Claim C6 counterexample: restoring a record that holds only the
legacy `last_used_source` bookmark and persisting the restored memory
produces a record with a new `session_state` key, so the stored record
is not identical to the original — the round-trip is not idempotent
for every persisted record. -/
theorem C6_roundtrip_counterexample :
    persistAfterRestore legacyRecord ≠ legacyRecord := by
  decide

/-- Claim C6 (amended): for every persisted record that contains a full
session snapshot — a `session_state` whose `targets` and `sourceFaces`
keys are both present, which is exactly the shape the auto-save effect
writes — restoring it and immediately persisting the restored memory
yields an identical stored record.  Records holding only the legacy
`last_used_source` bookmark are instead upgraded: they gain a
`session_state` key on the first save. -/
theorem C6_roundtrip_id_on_session_records
    (r : UserPreferences) (s : AppSessionState)
    (hs : r.session_state = some s)
    (ht : s.targets.isSome) (hf : s.sourceFaces.isSome) :
    persistAfterRestore r = r := by
  obtain ⟨T, hT⟩ := Option.isSome_iff_exists.mp ht
  obtain ⟨F, hF⟩ := Option.isSome_iff_exists.mp hf
  cases r with
  | mk lus ss =>
    cases s with
    | mk st sf sa =>
      simp only at hs
      subst hs
      simp only at hT hF
      subst hT
      subst hF
      rfl

/-- Witness for C6 (amended): a concrete full-snapshot record
round-trips identically. -/
theorem C6_roundtrip_id_witness :
    persistAfterRestore
      { last_used_source := none
        session_state := some
          { targets := some [{ id := 1, originalUrl := "u", status := .idle }]
            sourceFaces := some ["f"]
            analysis := none } } =
      { last_used_source := none
        session_state := some
          { targets := some [{ id := 1, originalUrl := "u", status := .idle }]
            sourceFaces := some ["f"]
            analysis := none } } :=
  C6_roundtrip_id_on_session_records _ _ rfl rfl rfl

/-- Claim C8 counterexample: a `get` request error during
`updatePreferences` is not swallowed — the persistence operation
rejects and the error escapes to its caller. -/
theorem C8_write_error_propagates :
    (updatePreferencesE (.getFail "boom") none
      (autoSavePartial initialMem)).1 = .error "boom" := by
  rfl

/-- Claim C8 (amended): on every storage fault, the in-memory session
state and the stored record are unchanged; an `openDB` failure on the
read path is swallowed (`loadPreferences` resolves to `null`); but a
write-path fault is re-thrown out of `updatePreferences` — the
rejection escapes the persistence operation and is merely ignored by
the fire-and-forget auto-save caller. -/
theorem C8_faults_leave_state_unchanged
    (fault : StorageFault) (m : SessionMem) (store : Option UserPreferences)
    (hf : fault ≠ .ok) :
    autoSaveStep fault m store = (m, store) ∧
    (∀ e, fault = .openFail e → loadPreferencesE fault store = .ok none) ∧
    ∃ e, (updatePreferencesE fault store (autoSavePartial m)).1 = .error e := by
  refine ⟨?_, ?_, ?_⟩
  · cases fault with
    | ok => exact absurd rfl hf
    | openFail e => rfl
    | getFail e => rfl
    | putFail e => rfl
  · intro e he
    subst he
    rfl
  · cases fault with
    | ok => exact absurd rfl hf
    | openFail e => exact ⟨e, rfl⟩
    | getFail e => exact ⟨e, rfl⟩
    | putFail e => exact ⟨e, rfl⟩

/-- Witness for C8 (amended) at a concrete fault, memory and store. -/
theorem C8_faults_witness :
    autoSaveStep (.putFail "disk") initialMem (some legacyRecord) =
      (initialMem, some legacyRecord) ∧
    (∀ e, StorageFault.putFail "disk" = .openFail e →
      loadPreferencesE (.putFail "disk") (some legacyRecord) = .ok none) ∧
    ∃ e, (updatePreferencesE (.putFail "disk") (some legacyRecord)
      (autoSavePartial initialMem)).1 = .error e :=
  C8_faults_leave_state_unchanged (.putFail "disk") initialMem
    (some legacyRecord) (by decide)

/-- Claim C7: in every startup interleaving, no persistence write
occurs before the initial restore has settled: if position `n` of the
event trace is a write, some earlier position is the restore
settlement (the auto-save effect bails out while `isStorageLoaded` is
still false, and `isStorageLoaded` only becomes true in the `finally`
of `init`, after `loadPreferences` has settled). -/
theorem C7_no_write_before_restore (acts : List PersistAct) (n : Nat)
    (hw : (persistTrace false acts)[n]? = some PersistEvent.write) :
    ∃ m, m < n ∧
      (persistTrace false acts)[m]? = some PersistEvent.restoreSettled := by
  induction acts generalizing n with
  | nil => simp [persistTrace] at hw
  | cons a rest ih =>
    cases a with
    | finishRestore =>
      cases n with
      | zero => simp [persistTrace] at hw
      | succ k => exact ⟨0, Nat.succ_pos k, by simp [persistTrace]⟩
    | autoSaveTick =>
      have hw' : (persistTrace false rest)[n]? = some PersistEvent.write := hw
      obtain ⟨m, hm, hr⟩ := ih n hw'
      exact ⟨m, hm, hr⟩

/-- Witness for C7: a trace where the restore settles and then an
auto-save write fires has a restore settlement before the write. -/
theorem C7_no_write_before_restore_witness :
    ∃ m, m < 1 ∧
      (persistTrace false [PersistAct.finishRestore, PersistAct.autoSaveTick])[m]? =
        some PersistEvent.restoreSettled :=
  C7_no_write_before_restore [PersistAct.finishRestore, PersistAct.autoSaveTick]
    1 (by decide)

/-- Claim C9: inserting into the source identity sequence leaves it
unchanged when the image is byte-identical to one already present or
the sequence is at capacity (3), silently; otherwise it appends at the
end.  Consequently, starting from any in-range sequence, the length
never exceeds 3 and no duplicate is ever introduced. -/
theorem C9_addSourceFace_spec (prev : List String) (img : String)
    (hlen : prev.length ≤ 3) :
    (img ∈ prev ∨ prev.length = 3 → addSourceFace prev img = prev) ∧
    (img ∉ prev ∧ prev.length < 3 → addSourceFace prev img = prev ++ [img]) ∧
    (addSourceFace prev img).length ≤ 3 ∧
    (prev.Nodup → (addSourceFace prev img).Nodup) := by
  unfold addSourceFace
  by_cases hmem : img ∈ prev
  · rw [if_pos hmem]
    exact ⟨fun _ => rfl, fun h => absurd hmem h.1, hlen, fun h => h⟩
  · rw [if_neg hmem]
    by_cases hcap : prev.length ≥ 3
    · have h3 : prev.length = 3 := le_antisymm hlen hcap
      rw [if_pos hcap]
      refine ⟨fun _ => rfl, fun h => absurd h3 (Nat.ne_of_lt h.2), hlen, fun h => h⟩
    · rw [if_neg hcap]
      have hlt : prev.length < 3 := lt_of_not_ge hcap
      refine ⟨?_, fun _ => rfl, ?_, ?_⟩
      · intro h
        rcases h with h | h
        · exact absurd h hmem
        · exact absurd h (Nat.ne_of_lt hlt)
      · simp only [List.length_append, List.length_singleton]
        omega
      · intro hnd
        simp [List.nodup_append, hnd, hmem]

theorem mem_updById_of_ne {id : Nat} {mod : ProcessedImage → ProcessedImage}
    {live : List ProcessedImage} {t : ProcessedImage}
    (ht : t ∈ live) (hne : t.id ≠ id) : t ∈ updById id mod live := by
  unfold updById
  have he : (if t.id = id then mod t else t) = t := if_neg hne
  exact List.mem_map.mpr ⟨t, ht, he⟩

theorem of_mem_updById_ne {id : Nat} {mod : ProcessedImage → ProcessedImage}
    {live : List ProcessedImage} {t : ProcessedImage}
    (ht : t ∈ updById id mod live) (hne : t.id ≠ id)
    (hmod : ∀ x, (mod x).id = x.id) : t ∈ live := by
  unfold updById at ht
  obtain ⟨x, hx, hxe⟩ := List.mem_map.mp ht
  by_cases hxi : x.id = id
  · rw [if_pos hxi] at hxe
    subst hxe
    exact absurd ((hmod x).trans hxi) hne
  · rw [if_neg hxi] at hxe
    subst hxe
    exact hx

theorem mem_updById_id {id : Nat} {mod : ProcessedImage → ProcessedImage}
    {live : List ProcessedImage} {t : ProcessedImage}
    (ht : t ∈ updById id mod live) (hid : t.id = id) :
    ∃ x ∈ live, x.id = id ∧ t = mod x := by
  unfold updById at ht
  obtain ⟨x, hx, hxe⟩ := List.mem_map.mp ht
  by_cases hxi : x.id = id
  · rw [if_pos hxi] at hxe
    exact ⟨x, hx, hxi, hxe.symm⟩
  · rw [if_neg hxi] at hxe
    subst hxe
    exact absurd hid hxi

theorem processItem_none {snap : List ProcessedImage} {sources : List String}
    {settings : SwapSettings} {r : Except String String} {id : Nat}
    {live : List ProcessedImage} (h : targetUrlOf snap id = none) :
    processItem snap sources settings r id live = (markProcessing id live, none) := by
  unfold processItem
  rw [h]

theorem processItem_ok {snap : List ProcessedImage} {sources : List String}
    {settings : SwapSettings} {id : Nat} {live : List ProcessedImage}
    {url img : String} (h : targetUrlOf snap id = some url) :
    processItem snap sources settings (.ok img) id live =
      (markCompleted id img (markProcessing id live),
       some ⟨sources, url, settings⟩) := by
  unfold processItem
  rw [h]

theorem processItem_err {snap : List ProcessedImage} {sources : List String}
    {settings : SwapSettings} {id : Nat} {live : List ProcessedImage}
    {url e : String} (h : targetUrlOf snap id = some url) :
    processItem snap sources settings (.error e) id live =
      (markFailed id e (markProcessing id live),
       some ⟨sources, url, settings⟩) := by
  unfold processItem
  rw [h]

theorem processItem_mem_of_ne {snap : List ProcessedImage} {sources : List String}
    {settings : SwapSettings} {r : Except String String} {id : Nat}
    {live : List ProcessedImage} {t : ProcessedImage}
    (ht : t ∈ live) (hne : t.id ≠ id) :
    t ∈ (processItem snap sources settings r id live).1 := by
  cases htu : targetUrlOf snap id with
  | none =>
    rw [processItem_none htu]
    exact mem_updById_of_ne ht hne
  | some url =>
    cases r with
    | ok img =>
      rw [processItem_ok htu]
      exact mem_updById_of_ne (mem_updById_of_ne ht hne) hne
    | error e =>
      rw [processItem_err htu]
      exact mem_updById_of_ne (mem_updById_of_ne ht hne) hne

theorem processItem_mem_ne_rev {snap : List ProcessedImage} {sources : List String}
    {settings : SwapSettings} {r : Except String String} {id : Nat}
    {live : List ProcessedImage} {t : ProcessedImage}
    (ht : t ∈ (processItem snap sources settings r id live).1) (hne : t.id ≠ id) :
    t ∈ live := by
  cases htu : targetUrlOf snap id with
  | none =>
    rw [processItem_none htu] at ht
    exact of_mem_updById_ne ht hne (fun _ => rfl)
  | some url =>
    cases r with
    | ok img =>
      rw [processItem_ok htu] at ht
      exact of_mem_updById_ne
        (of_mem_updById_ne ht hne (fun _ => rfl)) hne (fun _ => rfl)
    | error e =>
      rw [processItem_err htu] at ht
      exact of_mem_updById_ne
        (of_mem_updById_ne ht hne (fun _ => rfl)) hne (fun _ => rfl)

theorem processItem_terminal {snap : List ProcessedImage} {sources : List String}
    {settings : SwapSettings} {r : Except String String} {id : Nat}
    {live : List ProcessedImage} {t : ProcessedImage} {url : String}
    (htu : targetUrlOf snap id = some url)
    (ht : t ∈ (processItem snap sources settings r id live).1) (hid : t.id = id) :
    terminalStatus t := by
  cases r with
  | ok img =>
    rw [processItem_ok htu] at ht
    obtain ⟨x, _, _, hteq⟩ := mem_updById_id ht hid
    subst hteq
    exact Or.inl rfl
  | error e =>
    rw [processItem_err htu] at ht
    obtain ⟨x, _, _, hteq⟩ := mem_updById_id ht hid
    subst hteq
    exact Or.inr rfl

theorem runWorklist_terminal_aux (snap : List ProcessedImage)
    (sources : List String) (settings : SwapSettings)
    (oracle : Nat → Except String String)
    (edits : Nat → List ProcessedImage → List ProcessedImage) (wl : List Nat)
    (hurl : ∀ id ∈ wl, (targetUrlOf snap id).isSome)
    (hedits : ∀ k live t, t ∈ edits k live → t ∈ live ∨ t.id ∉ wl) :
    ∀ (todo : List Nat), (∀ i ∈ todo, i ∈ wl) →
    ∀ (Q : Nat → Prop), (∀ i, Q i → i ∈ wl) →
    ∀ (k : Nat) (live : List ProcessedImage),
      (∀ t ∈ live, Q t.id → terminalStatus t) →
      ∀ t ∈ (runWorklist snap sources settings oracle edits todo k live).1,
        Q t.id ∨ t.id ∈ todo → terminalStatus t := by
  intro todo
  induction todo with
  | nil =>
    intro _ Q _ k live hinv t ht hQt
    rcases hQt with h | h
    · exact hinv t ht h
    · exact absurd h (List.not_mem_nil t.id)
  | cons id rest ih =>
    intro htodo Q hQw k live hinv t ht hQt
    have hidwl : id ∈ wl := htodo id (List.mem_cons_self id rest)
    obtain ⟨url, hurl_eq⟩ := Option.isSome_iff_exists.mp (hurl id hidwl)
    have hinv2 : ∀ u ∈ (processItem snap sources settings (oracle k) id
        (edits k live)).1, (Q u.id ∨ u.id = id) → terminalStatus u := by
      intro u hu hQu
      by_cases huid : u.id = id
      · exact processItem_terminal hurl_eq hu huid
      · rcases hQu with hq | he
        · have hu' : u ∈ edits k live := processItem_mem_ne_rev hu huid
          rcases hedits k live u hu' with hmem | hnot
          · exact hinv u hmem hq
          · exact absurd (hQw u.id hq) hnot
        · exact absurd he huid
    have ht' : t ∈ (runWorklist snap sources settings oracle edits rest (k + 1)
        (processItem snap sources settings (oracle k) id (edits k live)).1).1 := ht
    refine ih (fun i hi => htodo i (List.mem_cons_of_mem id hi))
      (fun i => Q i ∨ i = id)
      (fun i h => h.elim (hQw i) (fun he => he ▸ hidwl))
      (k + 1) _ hinv2 t ht' ?_
    rcases hQt with h | h
    · exact Or.inl (Or.inl h)
    · rcases List.mem_cons.mp h with he | hr
      · exact Or.inl (Or.inr he)
      · exact Or.inr hr

/-- Witness for C9 at a concrete two-element sequence and a fresh
image. -/
theorem C9_addSourceFace_witness :
    ("c" ∈ ["a", "b"] ∨ List.length ["a", "b"] = 3 →
      addSourceFace ["a", "b"] "c" = ["a", "b"]) ∧
    ("c" ∉ ["a", "b"] ∧ List.length ["a", "b"] < 3 →
      addSourceFace ["a", "b"] "c" = ["a", "b"] ++ ["c"]) ∧
    (addSourceFace ["a", "b"] "c").length ≤ 3 ∧
    (List.Nodup ["a", "b"] → (addSourceFace ["a", "b"] "c").Nodup) :=
  C9_addSourceFace_spec ["a", "b"] "c" (by decide)


theorem targetUrlOf_isSome_of_idle (snap : List ProcessedImage)
    (hnd : (snap.map (·.id)).Nodup)
    (hurlIdle : ∀ t ∈ snap, t.status = .idle → t.originalUrl ≠ "")
    (id : Nat) (hid : id ∈ idleIds snap) : (targetUrlOf snap id).isSome := by
  obtain ⟨t, htf, htid⟩ := List.mem_map.mp hid
  have htmem : t ∈ snap := (List.mem_filter.mp htf).1
  have htidle : t.status = .idle := by
    have h := (List.mem_filter.mp htf).2
    simpa using h
  unfold targetUrlOf
  cases hf : snap.find? (fun x => x.id == id) with
  | none =>
    have hnone := List.find?_eq_none.mp hf t htmem
    simp [htid] at hnone
  | some x =>
    have hxmem : x ∈ snap := List.mem_of_find?_eq_some hf
    have hxid : x.id = id := by
      have h := List.find?_some hf
      simpa using h
    have hxt : x = t := by
      apply List.inj_on_of_nodup_map hnd hxmem htmem
      simp [hxid, htid]
    subst hxt
    show (if x.originalUrl = "" then none else some x.originalUrl).isSome = true
    rw [if_neg (hurlIdle x hxmem htidle)]
    rfl

theorem runWorklist_append_mem_fwd (snap : List ProcessedImage)
    (sources : List String) (settings : SwapSettings)
    (oracle : Nat → Except String String) (adds : Nat → List ProcessedImage) :
    ∀ (todo : List Nat) (k : Nat) (live : List ProcessedImage)
      (t : ProcessedImage), t ∈ live → t.id ∉ todo →
      t ∈ (runWorklist snap sources settings oracle
        (fun j l => l ++ adds j) todo k live).1 := by
  intro todo
  induction todo with
  | nil => intro k live t ht _; exact ht
  | cons id rest ih =>
    intro k live t ht hnt
    have h1 : t ∈ live ++ adds k := List.mem_append_left _ ht
    have hne : t.id ≠ id := fun he => hnt (he ▸ List.mem_cons_self id rest)
    have h2 : t ∈ (processItem snap sources settings (oracle k) id
        (live ++ adds k)).1 := processItem_mem_of_ne h1 hne
    exact ih (k + 1) _ t h2 (fun hr => hnt (List.mem_cons_of_mem id hr))

theorem runWorklist_append_mem_bwd (snap : List ProcessedImage)
    (sources : List String) (settings : SwapSettings)
    (oracle : Nat → Except String String) (adds : Nat → List ProcessedImage) :
    ∀ (todo : List Nat) (k : Nat) (live : List ProcessedImage)
      (t : ProcessedImage),
      t ∈ (runWorklist snap sources settings oracle
        (fun j l => l ++ adds j) todo k live).1 → t.id ∉ todo →
      t ∈ live ∨ ∃ j, k ≤ j ∧ j < k + todo.length ∧ t ∈ adds j := by
  intro todo
  induction todo with
  | nil => intro k live t ht _; exact Or.inl ht
  | cons id rest ih =>
    intro k live t ht hnt
    have hne : t.id ≠ id := fun he => hnt (he ▸ List.mem_cons_self id rest)
    have hnr : t.id ∉ rest := fun hr => hnt (List.mem_cons_of_mem id hr)
    have ht' : t ∈ (runWorklist snap sources settings oracle
        (fun j l => l ++ adds j) rest (k + 1)
        (processItem snap sources settings (oracle k) id (live ++ adds k)).1).1 := ht
    rcases ih (k + 1) _ t ht' hnr with h2 | ⟨j, hj1, hj2, hja⟩
    · have h1 : t ∈ live ++ adds k := processItem_mem_ne_rev h2 hne
      rcases List.mem_append.mp h1 with hl | ha
      · exact Or.inl hl
      · exact Or.inr ⟨k, Nat.le_refl k, by simp, ha⟩
    · refine Or.inr ⟨j, by omega, by simp only [List.length_cons]; omega, hja⟩

theorem runWorklist_append_adds_mem (snap : List ProcessedImage)
    (sources : List String) (settings : SwapSettings)
    (oracle : Nat → Except String String) (adds : Nat → List ProcessedImage)
    (wl : List Nat) (hids : ∀ j t, t ∈ adds j → t.id ∉ wl) :
    ∀ (todo : List Nat), (∀ i ∈ todo, i ∈ wl) →
    ∀ (k : Nat) (live : List ProcessedImage) (j : Nat), k ≤ j →
      j < k + todo.length → ∀ t ∈ adds j,
      t ∈ (runWorklist snap sources settings oracle
        (fun j l => l ++ adds j) todo k live).1 := by
  intro todo
  induction todo with
  | nil =>
    intro _ k live j h1 h2 t _
    simp only [List.length_nil, Nat.add_zero] at h2
    omega
  | cons id rest ih =>
    intro htodo k live j h1 h2 t ht
    have hnw : t.id ∉ wl := hids j t ht
    by_cases hjk : j = k
    · subst hjk
      have h1' : t ∈ live ++ adds j := List.mem_append_right _ ht
      have hne : t.id ≠ id :=
        fun he => hnw (he ▸ htodo id (List.mem_cons_self id rest))
      have h2' : t ∈ (processItem snap sources settings (oracle j) id
          (live ++ adds j)).1 := processItem_mem_of_ne h1' hne
      exact runWorklist_append_mem_fwd snap sources settings oracle adds
        rest (j + 1) _ t h2' (fun hr => hnw (htodo t.id (List.mem_cons_of_mem id hr)))
    · have hk1 : k + 1 ≤ j := by omega
      have hk2 : j < (k + 1) + rest.length := by
        simp only [List.length_cons] at h2; omega
      exact ih (fun i hi => htodo i (List.mem_cons_of_mem id hi))
        (k + 1) _ j hk1 hk2 t ht

/-- Claim C1: for every target collection with at least one source
identity image present, after `runBatch()` settles (here: with
arbitrary fresh `idle` items appended to the live collection at the
suspension points), every item whose id is in the worklist (the ids
`idle` at call time) ends in a terminal status `completed` or `failed`;
every final item whose id is not in the worklist is untouched — it is
literally an element of the call-time collection or one of the added
batches — every non-worklist call-time item survives to the end, every
added item survives to the end, and the added items are still `idle`. -/
theorem C1_runBatch_postcondition (snap : List ProcessedImage)
    (sources : List String) (settings : SwapSettings)
    (oracle : Nat → Except String String) (adds : Nat → List ProcessedImage)
    (hsrc : sources ≠ [])
    (hnd : (snap.map (·.id)).Nodup)
    (hurlIdle : ∀ t ∈ snap, t.status = .idle → t.originalUrl ≠ "")
    (hadds : ∀ k t, t ∈ adds k → t.status = .idle ∧ t.id ∉ idleIds snap) :
    (∀ t ∈ (runBatchProcessor snap sources settings oracle
        (fun j l => l ++ adds j)).1,
      t.id ∈ idleIds snap → terminalStatus t) ∧
    (∀ t ∈ (runBatchProcessor snap sources settings oracle
        (fun j l => l ++ adds j)).1,
      t.id ∉ idleIds snap →
        t ∈ snap ∨ ∃ j, j < (idleIds snap).length ∧ t ∈ adds j) ∧
    (∀ t ∈ snap, t.id ∉ idleIds snap →
      t ∈ (runBatchProcessor snap sources settings oracle
        (fun j l => l ++ adds j)).1) ∧
    (∀ j, j < (idleIds snap).length → ∀ t ∈ adds j,
      t ∈ (runBatchProcessor snap sources settings oracle
        (fun j l => l ++ adds j)).1 ∧ t.status = .idle) := by
  have hE : runBatchProcessor snap sources settings oracle
      (fun j l => l ++ adds j) =
      runWorklist snap sources settings oracle (fun j l => l ++ adds j)
        (idleIds snap) 0 snap := by
    cases sources with
    | nil => exact absurd rfl hsrc
    | cons a as => rfl
  have hurl : ∀ id ∈ idleIds snap, (targetUrlOf snap id).isSome :=
    fun id hid => targetUrlOf_isSome_of_idle snap hnd hurlIdle id hid
  have hedits : ∀ k live (t : ProcessedImage), t ∈ live ++ adds k →
      t ∈ live ∨ t.id ∉ idleIds snap := by
    intro k live t ht
    rcases List.mem_append.mp ht with h | h
    · exact Or.inl h
    · exact Or.inr (hadds k t h).2
  refine ⟨?_, ?_, ?_, ?_⟩
  · intro t ht htw
    rw [hE] at ht
    exact runWorklist_terminal_aux snap sources settings oracle _
      (idleIds snap) hurl hedits (idleIds snap) (fun i hi => hi)
      (fun _ => False) (fun i h => h.elim) 0 snap
      (fun t _ h => h.elim) t ht (Or.inr htw)
  · intro t ht htw
    rw [hE] at ht
    rcases runWorklist_append_mem_bwd snap sources settings oracle adds
      (idleIds snap) 0 snap t ht htw with h | ⟨j, _, hj2, hja⟩
    · exact Or.inl h
    · exact Or.inr ⟨j, by omega, hja⟩
  · intro t ht htw
    rw [hE]
    exact runWorklist_append_mem_fwd snap sources settings oracle adds
      (idleIds snap) 0 snap t ht htw
  · intro j hj t ht
    refine ⟨?_, (hadds j t ht).1⟩
    rw [hE]
    exact runWorklist_append_adds_mem snap sources settings oracle adds
      (idleIds snap) (fun j t htj => (hadds j t htj).2) (idleIds snap)
      (fun i hi => hi) 0 snap j (Nat.zero_le j) (by omega) t ht

/-- Witness for C1 at a concrete collection, source list, oracle and
mid-run addition: the worklist item ends terminal, and the item added
during the run is present and still idle. -/
theorem C1_runBatch_postcondition_witness :
    (∀ t ∈ (runBatchProcessor snapC1W ["s"] DEFAULT_SWAP_SETTINGS
        (fun _ => Except.ok "out") (fun j l => l ++ addsC1W j)).1,
      t.id ∈ idleIds snapC1W → terminalStatus t) ∧
    (∀ j, j < (idleIds snapC1W).length → ∀ t ∈ addsC1W j,
      t ∈ (runBatchProcessor snapC1W ["s"] DEFAULT_SWAP_SETTINGS
        (fun _ => Except.ok "out") (fun j l => l ++ addsC1W j)).1 ∧
      t.status = .idle) := by
  have hadds : ∀ k t, t ∈ addsC1W k →
      t.status = Status.idle ∧ t.id ∉ idleIds snapC1W := by
    intro k t ht
    unfold addsC1W at ht
    by_cases hk : k = 0
    · subst hk
      rw [if_pos rfl, List.mem_singleton] at ht
      subst ht
      exact ⟨rfl, by decide⟩
    · rw [if_neg hk] at ht
      exact absurd ht (List.not_mem_nil t)
  have h := C1_runBatch_postcondition snapC1W ["s"] DEFAULT_SWAP_SETTINGS
    (fun _ => Except.ok "out") addsC1W (by decide) (by decide) (by decide) hadds
  exact ⟨h.1, h.2.2.2⟩


theorem ItemInv_processedUrl_none {x : ProcessedImage} (h : ItemInv x)
    (hs : x.status ≠ .completed) : x.processedUrl = none := by
  cases hpu : x.processedUrl with
  | none => rfl
  | some v => exact absurd (h.1.mp (by rw [hpu]; rfl)) hs

theorem ItemInv_error_none {x : ProcessedImage} (h : ItemInv x)
    (hs : x.status ≠ .failed) : x.error = none := by
  cases hpu : x.error with
  | none => rfl
  | some v => exact absurd (h.2.mp (by rw [hpu]; rfl)) hs

theorem idleIds_nodup {m : List ProcessedImage}
    (hnd : (m.map (·.id)).Nodup) : (idleIds m).Nodup := by
  unfold idleIds
  exact List.Nodup.sublist ((List.filter_sublist _).map _) hnd

theorem idle_of_mem_idleIds {m : List ProcessedImage} {t : ProcessedImage}
    (hnd : (m.map (·.id)).Nodup) (ht : t ∈ m) (hid : t.id ∈ idleIds m) :
    t.status = .idle := by
  obtain ⟨x, hxf, hxid⟩ := List.mem_map.mp hid
  have hxm : x ∈ m := (List.mem_filter.mp hxf).1
  have hxidle : x.status = Status.idle := by
    simpa using (List.mem_filter.mp hxf).2
  have hxt : x = t := by
    apply List.inj_on_of_nodup_map hnd hxm ht
    simpa using hxid
  subst hxt
  exact hxidle

theorem processItem_inv {snap : List ProcessedImage} {sources : List String}
    {settings : SwapSettings} {r : Except String String} {id : Nat}
    {live : List ProcessedImage}
    (hid_ok : ∀ x ∈ live, x.id = id →
      x.status = .idle ∧ x.processedUrl = none ∧ x.error = none)
    (hinv : InvList live) :
    InvList (processItem snap sources settings r id live).1 := by
  cases htu : targetUrlOf snap id with
  | none =>
    rw [processItem_none htu]
    intro u hu
    unfold markProcessing updById at hu
    obtain ⟨x, hx, hxe⟩ := List.mem_map.mp hu
    by_cases hxi : x.id = id
    · rw [if_pos hxi] at hxe
      subst hxe
      obtain ⟨hs, hp, he⟩ := hid_ok x hx hxi
      exact ⟨by simp [hp], by simp [he]⟩
    · rw [if_neg hxi] at hxe
      subst hxe
      exact hinv x hx
  | some url =>
    cases r with
    | ok img =>
      rw [processItem_ok htu]
      intro u hu
      unfold markCompleted markProcessing updById at hu
      obtain ⟨y, hy, hye⟩ := List.mem_map.mp hu
      obtain ⟨x, hx, hxe⟩ := List.mem_map.mp hy
      by_cases hxi : x.id = id
      · rw [if_pos hxi] at hxe
        subst hxe
        rw [if_pos hxi] at hye
        subst hye
        obtain ⟨hs, hp, he⟩ := hid_ok x hx hxi
        exact ⟨by simp, by simp [he]⟩
      · rw [if_neg hxi] at hxe
        subst hxe
        rw [if_neg hxi] at hye
        subst hye
        exact hinv x hx
    | error e =>
      rw [processItem_err htu]
      intro u hu
      unfold markFailed markProcessing updById at hu
      obtain ⟨y, hy, hye⟩ := List.mem_map.mp hu
      obtain ⟨x, hx, hxe⟩ := List.mem_map.mp hy
      by_cases hxi : x.id = id
      · rw [if_pos hxi] at hxe
        subst hxe
        rw [if_pos hxi] at hye
        subst hye
        obtain ⟨hs, hp, he⟩ := hid_ok x hx hxi
        exact ⟨by simp [hp], by simp⟩
      · rw [if_neg hxi] at hxe
        subst hxe
        rw [if_neg hxi] at hye
        subst hye
        exact hinv x hx

theorem runWorklist_inv_aux (snap : List ProcessedImage)
    (sources : List String) (settings : SwapSettings)
    (oracle : Nat → Except String String)
    (edits : Nat → List ProcessedImage → List ProcessedImage) (wl : List Nat)
    (hedits : ∀ j live (t : ProcessedImage), t ∈ edits j live → t ∈ live ∨
      (t.status = .idle ∧ t.processedUrl = none ∧ t.error = none ∧
        t.id ∉ wl)) :
    ∀ (todo : List Nat), todo.Nodup → (∀ i ∈ todo, i ∈ wl) →
    ∀ (k : Nat) (live : List ProcessedImage), InvList live →
      (∀ t ∈ live, t.id ∈ todo → t.status = .idle) →
      InvList (runWorklist snap sources settings oracle edits todo k live).1 := by
  intro todo
  induction todo with
  | nil => intro _ _ k live hinv _; exact hinv
  | cons id rest ih =>
    intro hnd htodo k live hinv hidle
    have hinv1 : InvList (edits k live) := by
      intro t ht
      rcases hedits k live t ht with h | ⟨hs, hp, he, _⟩
      · exact hinv t h
      · exact ⟨by simp [hp, hs], by simp [he, hs]⟩
    have hidle1 : ∀ t ∈ edits k live, t.id ∈ id :: rest →
        t.status = Status.idle := by
      intro t ht hmem
      rcases hedits k live t ht with h | ⟨hs, _, _, hni⟩
      · exact hidle t h hmem
      · exact absurd (htodo t.id hmem) hni
    have hok : ∀ x ∈ edits k live, x.id = id →
        x.status = Status.idle ∧ x.processedUrl = none ∧ x.error = none := by
      intro x hx hxi
      have hxidle : x.status = Status.idle :=
        hidle1 x hx (by rw [hxi]; exact List.mem_cons_self id rest)
      have hxinv := hinv1 x hx
      exact ⟨hxidle, ItemInv_processedUrl_none hxinv (by simp [hxidle]),
        ItemInv_error_none hxinv (by simp [hxidle])⟩
    have hinv2 : InvList (processItem snap sources settings (oracle k) id
        (edits k live)).1 := processItem_inv hok hinv1
    have hidle2 : ∀ t ∈ (processItem snap sources settings (oracle k) id
        (edits k live)).1, t.id ∈ rest → t.status = Status.idle := by
      intro t ht hmem
      have hne : t.id ≠ id := by
        intro he
        exact (List.nodup_cons.mp hnd).1 (he ▸ hmem)
      exact hidle1 t (processItem_mem_ne_rev ht hne)
        (List.mem_cons_of_mem id hmem)
    exact ih (List.nodup_cons.mp hnd).2
      (fun i hi => htodo i (List.mem_cons_of_mem id hi)) (k + 1) _ hinv2 hidle2

/-- Claim C2: for every target item, after any sequence of the modelled
operations — creation, batch-pipeline transitions (including any prefix
of a run, with user edits at the suspension points), removal, debounced
persistence, new sessions and session restore — `processedUrl` is
present iff the item's status is `completed` and `error` is present iff
its status is `failed`, both in the in-memory collection and in the
persisted snapshot. -/
theorem C2_status_field_invariant
    (ms : List ProcessedImage × Option (List ProcessedImage))
    (h : ReachableTargets ms) :
    InvList ms.1 ∧ ∀ p, ms.2 = some p → InvList p := by
  induction h with
  | init =>
    exact ⟨fun t ht => absurd ht (List.not_mem_nil t), fun p hp => nomatch hp⟩
  | addTarget m s id url _ ih =>
    refine ⟨?_, ih.2⟩
    intro t ht
    rcases List.mem_append.mp ht with h1 | h1
    · exact ih.1 t h1
    · rw [List.mem_singleton] at h1
      subst h1
      exact ⟨by simp, by simp⟩
  | removeTarget m s id _ ih =>
    exact ⟨fun t ht => ih.1 t (List.mem_of_mem_filter ht), ih.2⟩
  | batch m s sources settings oracle edits k hnd hedits _ ih =>
    refine ⟨?_, ih.2⟩
    apply runWorklist_inv_aux m sources settings oracle edits (idleIds m) hedits
    · exact List.Nodup.sublist (List.take_sublist k _) (idleIds_nodup hnd)
    · exact fun i hi => List.take_subset k _ hi
    · exact ih.1
    · intro t ht hmem
      exact idle_of_mem_idleIds hnd ht (List.take_subset _ _ hmem)
  | persist m s _ ih =>
    refine ⟨ih.1, ?_⟩
    intro p hp
    injection hp with hp2
    subst hp2
    exact ih.1
  | newSession m s _ ih =>
    exact ⟨fun t ht => absurd ht (List.not_mem_nil t), ih.2⟩
  | restore m p _ ih =>
    exact ⟨ih.2 p rfl, ih.2⟩

/-- Witness for C2 at a concrete reachable state: one freshly created
item, nothing persisted yet. -/
theorem C2_status_field_invariant_witness :
    InvList (([] : List ProcessedImage) ++
      [{ id := 1, originalUrl := "u", status := .idle }]) ∧
    ∀ p, (none : Option (List ProcessedImage)) = some p → InvList p :=
  C2_status_field_invariant _
    (ReachableTargets.addTarget [] none 1 "u" ReachableTargets.init)


/-- Claim C3, evaluated at the failing input: two idle targets; during
item 1's awaited swap the user removes item 2 from the live collection.
The loop's lookup `targets.find(t => t.id === id)` runs against the
call-time closure snapshot, not the live model, so the engine is still
invoked with item 2's snapshot `originalUrl` ("u2") even though the
item can no longer be found in the live collection (the final
collection contains no item with id 2).  The claim — and the code's
own comments, which call the lookup "fresh state" and treat
`if (!targetUrl) continue` as a skip for vanished items — say the
removed item would be skipped without an engine call. -/
theorem C3_snapshot_lookup_bug :
    let snap : List ProcessedImage :=
      [{ id := 1, originalUrl := "u1", status := .idle },
       { id := 2, originalUrl := "u2", status := .idle }]
    let edits := fun (k : Nat) (live : List ProcessedImage) =>
      if k = 1 then live.filter (fun t => t.id ≠ 2) else live
    let run := runBatchProcessor snap ["s"] DEFAULT_SWAP_SETTINGS
      (fun _ => .ok "out") edits
    run.2.map (fun c => c.targetUrl) = ["u1", "u2"] ∧
      ∀ t ∈ run.1, t.id ≠ 2 := by
  decide

/-- Claim C4 counterexample: two idle targets; during item 1's awaited
swap the user flips `preserveHair` off.  The live settings at item 2's
dispatch time differ from the call-time settings, yet the engine call
for item 2 still carries the call-time settings — so settings are not
read from the live model at each item's dispatch. -/
theorem C4_settings_counterexample :
    let s0 := DEFAULT_SWAP_SETTINGS
    let sEdits := fun (_ : Nat) (s : SwapSettings) =>
      { s with preserveHair := false }
    let snap : List ProcessedImage :=
      [{ id := 1, originalUrl := "u1", status := .idle },
       { id := 2, originalUrl := "u2", status := .idle }]
    let run := runBatchProcessor snap ["s"] s0 (fun _ => .ok "out")
      (fun _ live => live)
    run.2.map (fun c => c.settings) = [s0, s0] ∧
      liveSettingsAt sEdits s0 1 ≠ s0 := by
  decide

theorem processItem_call_settings {snap : List ProcessedImage}
    {sources : List String} {settings : SwapSettings}
    {r : Except String String} {id : Nat} {live : List ProcessedImage}
    {c : SwapCall}
    (h : (processItem snap sources settings r id live).2 = some c) :
    c.settings = settings := by
  cases htu : targetUrlOf snap id with
  | none =>
    rw [processItem_none htu] at h
    exact absurd h (by simp)
  | some url =>
    cases r with
    | ok img =>
      rw [processItem_ok htu] at h
      injection h with h2
      subst h2
      rfl
    | error e =>
      rw [processItem_err htu] at h
      injection h with h2
      subst h2
      rfl

theorem runWorklist_trace_settings (snap : List ProcessedImage)
    (sources : List String) (settings : SwapSettings)
    (oracle : Nat → Except String String)
    (edits : Nat → List ProcessedImage → List ProcessedImage) :
    ∀ (todo : List Nat) (k : Nat) (live : List ProcessedImage)
      (c : SwapCall),
      c ∈ (runWorklist snap sources settings oracle edits todo k live).2 →
      c.settings = settings := by
  intro todo
  induction todo with
  | nil => intro k live c hc; exact absurd hc (List.not_mem_nil c)
  | cons id rest ih =>
    intro k live c hc
    have hc2 : c ∈ (processItem snap sources settings (oracle k) id
        (edits k live)).2.toList ++
        (runWorklist snap sources settings oracle edits rest (k + 1)
          (processItem snap sources settings (oracle k) id
            (edits k live)).1).2 := hc
    rcases List.mem_append.mp hc2 with h1 | h1
    · cases hstep : (processItem snap sources settings (oracle k) id
          (edits k live)).2 with
      | none =>
        rw [hstep] at h1
        exact absurd h1 (List.not_mem_nil c)
      | some call =>
        rw [hstep] at h1
        have hcc : c = call := by simpa using h1
        rw [hcc]
        exact processItem_call_settings hstep
    · exact ih (k + 1) _ c h1

/-- Claim C4 (amended): within a single `runBatch()` run, every engine
call uses the `settings` captured by the closure at `runBatch()` call
time — mid-run edits to the settings never affect the remaining items
of the running batch; they only apply to subsequent runs. -/
theorem C4_settings_captured_at_call (snap : List ProcessedImage)
    (sources : List String) (settings : SwapSettings)
    (oracle : Nat → Except String String)
    (edits : Nat → List ProcessedImage → List ProcessedImage) :
    ∀ c ∈ (runBatchProcessor snap sources settings oracle edits).2,
      c.settings = settings := by
  intro c hc
  unfold runBatchProcessor at hc
  by_cases h : sources.isEmpty
  · rw [if_pos h] at hc
    exact absurd hc (List.not_mem_nil c)
  · rw [if_neg h] at hc
    exact runWorklist_trace_settings snap sources settings oracle edits _ 0
      snap c hc

/-- Witness for C4 (amended): the call emitted by a concrete one-item
run carries the call-time settings. -/
theorem C4_settings_captured_witness :
    (⟨["s"], "u1", DEFAULT_SWAP_SETTINGS⟩ : SwapCall) ∈
      (runBatchProcessor [{ id := 1, originalUrl := "u1", status := .idle }]
        ["s"] DEFAULT_SWAP_SETTINGS (fun _ => .ok "out") (fun _ l => l)).2 ∧
    SwapCall.settings ⟨["s"], "u1", DEFAULT_SWAP_SETTINGS⟩ =
      DEFAULT_SWAP_SETTINGS :=
  ⟨by decide,
   C4_settings_captured_at_call
     [{ id := 1, originalUrl := "u1", status := .idle }] ["s"]
     DEFAULT_SWAP_SETTINGS (fun _ => .ok "out") (fun _ l => l) _ (by decide)⟩

end FaceArchitect
